import Mathlib

/-!
Verification development for a dotfile manager.

The program manages dotfiles: it scores per-widget configuration variants
against a detected environment fingerprint, classifies the files of the
chosen variant into destination directories under the user's home config
directory, detects compatibility conflicts, installs files with backups,
and keeps a line-oriented registry of compatible repositories.

The definitions below are a shallow embedding of the functions in
`dotfile_manager.py`.  Filesystem paths are modelled as lists of path
segments (`List String`); the filesystem state visible to the installer is
modelled as explicit lists of existing file paths and directory paths plus
an oracle of paths whose copy operation fails (modelling caught I/O
errors).  Python strings are Lean `String`s; where the registry component
needs provable string surgery it works on `List Char`, the character
sequence underlying a Python string.
-/

namespace Dotmng

/-! ## Basic string helpers (Python string operations) -/

/-- Python `needle in haystack` on lists of characters: `needle` occurs
contiguously inside `haystack`.  The empty needle occurs in everything. -/
def listContainsSub (needle : List Char) : List Char → Bool
  | [] => needle.isEmpty
  | c :: rest => needle.isPrefixOf (c :: rest) || listContainsSub needle rest

/-- Python `needle in haystack` for strings. -/
def strContains (haystack needle : String) : Bool :=
  listContainsSub needle.data haystack.data

/-- Python `s.lower()` (restricted, as Lean's `String.toLower` is, to the
basic latin letters): lower-case every character. -/
def pyToLower (s : String) : String := ⟨s.data.map Char.toLower⟩

/-- Python `s.upper()` (basic latin letters): upper-case every character. -/
def pyToUpper (s : String) : String := ⟨s.data.map Char.toUpper⟩

/-- Worker for `pySplitWs`: `acc` holds the characters of the current
token in reverse. -/
def splitWsGo (acc : List Char) : List Char → List String
  | [] => if acc.isEmpty then [] else [String.mk acc.reverse]
  | c :: cs =>
      if c.isWhitespace then
        (if acc.isEmpty then [] else [String.mk acc.reverse]) ++ splitWsGo [] cs
      else splitWsGo (c :: acc) cs

/-- Python `s.split()` with no argument: split on whitespace runs, dropping
empty tokens. -/
def pySplitWs (s : String) : List String :=
  splitWsGo [] s.data

/-- Python `s.startswith('.')`: the first character is a dot. -/
def startsWithDot (s : String) : Bool :=
  match s.data with
  | [] => false
  | c :: _ => c == '.'

/-- Index of the last `'.'` in a character list, if any. -/
def lastDotPos (l : List Char) : Option Nat :=
  match l.reverse.findIdx? (fun c => c == '.') with
  | none => none
  | some j => some (l.length - 1 - j)

/-- Python `pathlib.PurePath(name).stem`: the file name without its final
suffix.  A suffix starts at the last `'.'`, provided that dot is neither
the first nor the last character of the name. -/
def pyStem (s : String) : String :=
  match lastDotPos s.data with
  | none => s
  | some i => if 0 < i && i < s.data.length - 1 then ⟨s.data.take i⟩ else s

/-! ## Paths -/

/-- A filesystem path, as its list of segments (root-first). -/
abbrev FsPath := List String

/-- Python `Path(p).name`: the last segment. -/
def pathName (p : FsPath) : String := p.getLast?.getD ""

/-- Python `Path(p).parent`: the path without its last segment. -/
def pathParent (p : FsPath) : FsPath := p.dropLast

/-! ## Data model: widgets, variants, config files -/

/-- A file inside a variant tree, identified by its path relative to the
variant root: the directories leading to it and its base name. -/
structure CFile where
  dirs : List String
  base : String
deriving DecidableEq, Repr

/-- A named configuration variant of a widget, owning a tree of files.
`files` lists every file of the tree in `rglob` enumeration order. -/
structure Variant where
  name : String
  files : List CFile
deriving DecidableEq, Repr

/-- A widget: a named directory with variant subdirectories, in `iterdir`
enumeration order. -/
structure Widget where
  name : String
  variants : List Variant
deriving DecidableEq, Repr

/-- The manager's configuration (`dotfile_config.json`): backup flags,
dry-run flag, and the per-widget custom destination mappings. -/
structure Config where
  backup_existing : Bool
  create_backup_dir : Bool
  dry_run : Bool
  custom_mappings : List (String × List (String × String))
deriving DecidableEq, Repr

/-! ## find_widget_configs (dotfile_manager.py lines 276-295)

Enumerate the variant directories of a widget: all non-`default` variants
in directory order, then the `default` variant appended if it exists. -/

def find_widget_configs (w : Widget) : List Variant :=
  w.variants.filter (fun v => !(v.name == "default"))
    ++ (match w.variants.find? (fun v => v.name == "default") with
        | some d => [d]
        | none => [])

/-! ## select_best_config (dotfile_manager.py lines 297-334) -/

/-- The score the selector assigns one variant name against an environment
fingerprint: a first pass adds 2 for every non-empty fingerprint value
occurring (case-insensitively) in the variant name, a second pass adds 1
for every non-empty fingerprint value any of whose whitespace-separated
tokens occurs in the variant name. -/
def scoreVariant (env : List (String × String)) (variantName : String) : Nat :=
  let config_name := pyToLower variantName
  let s1 := env.foldl
    (fun s kv =>
      if !(kv.2 == "") && strContains config_name (pyToLower kv.2) then s + 2 else s) 0
  env.foldl
    (fun s kv =>
      if !(kv.2 == "") &&
          (pySplitWs (pyToLower kv.2)).any (fun part => strContains config_name part)
        then s + 1 else s) s1

/-- Select the best configuration variant for an environment fingerprint:
fold over `find_widget_configs`, skipping `default`, keeping the variant
with the strictly highest positive score; fall back to the `default`
variant when no variant scored above zero. -/
def select_best_config (w : Widget) (env : List (String × String)) : Option Variant :=
  let configs := find_widget_configs w
  if configs.isEmpty then none
  else
    let best := configs.foldl
      (fun (acc : Option Variant × Nat) c =>
        if c.name == "default" then acc
        else
          let score := scoreVariant env c.name
          if score > acc.2 then (some c, score) else acc)
      (none, 0)
    match best.1 with
    | some c => some c
    | none => w.variants.find? (fun v => v.name == "default")

/-! ## Reference selector, from the specification's words (claim C1)

The claim describes the selector by a reference definition.  `refScore`
and `refSelect` transcribe that reference definition literally: 2 points
for every fingerprint value that is a case-insensitive substring of the
variant name (with no non-emptiness proviso), plus 1 point for every
fingerprint value any of whose whitespace-separated tokens is a
case-insensitive substring; first-seen variant wins ties under a strict
comparison; fall back to `default`. -/

def refScore (env : List (String × String)) (variantName : String) : Nat :=
  2 * env.countP (fun kv => strContains (pyToLower variantName) (pyToLower kv.2))
    + env.countP (fun kv =>
        (pySplitWs (pyToLower kv.2)).any (fun part => strContains (pyToLower variantName) part))

/-- The reference scorer amended with the non-emptiness proviso the code
actually enforces: only non-empty fingerprint values earn the 2-point
exact-substring bonus. -/
def refScoreAmended (env : List (String × String)) (variantName : String) : Nat :=
  2 * env.countP (fun kv => !(kv.2 == "") && strContains (pyToLower variantName) (pyToLower kv.2))
    + env.countP (fun kv =>
        (pySplitWs (pyToLower kv.2)).any (fun part => strContains (pyToLower variantName) part))

/-- Generic reference selection loop over a scoring function. -/
def refSelectWith (score : List (String × String) → String → Nat)
    (w : Widget) (env : List (String × String)) : Option Variant :=
  let cands := w.variants.filter (fun v => !(v.name == "default"))
  let best := cands.foldl
    (fun (acc : Option Variant × Nat) v =>
      let s := score env v.name
      if s > acc.2 then (some v, s) else acc)
    (none, 0)
  match best.1 with
  | some v => some v
  | none => w.variants.find? (fun v => v.name == "default")

/-- The claim's reference selector, word for word. -/
def refSelect (w : Widget) (env : List (String × String)) : Option Variant :=
  refSelectWith refScore w env

/-- The reference selector with the amended (non-empty value) exact bonus. -/
def refSelectAmended (w : Widget) (env : List (String × String)) : Option Variant :=
  refSelectWith refScoreAmended w env

/-! ## get_config_files (dotfile_manager.py lines 336-363)

Classify every file of a variant tree into its destination directory.
`configPath` is the variant directory (`repo / widget / variant`);
`homeConfig` is `~/.config`; `files` is the `rglob` enumeration of the
files under `configPath`, relative to it. -/

/-- Destination directory of one classified file, before pairing with its
source path: first path segment (through the owning widget's custom
mapping, if any) for nested files, file stem for files at the variant
root. -/
def targetDirOf (cfg : Config) (homeConfig : FsPath) (configPath : FsPath)
    (item : CFile) : FsPath :=
  match item.dirs with
  | [] => homeConfig ++ [pyStem item.base]
  | program_name :: _ =>
      let widget_name := pathName (pathParent configPath)
      let custom_mappings := (cfg.custom_mappings.lookup widget_name).getD []
      match custom_mappings.lookup program_name with
      | some mapped => homeConfig ++ [mapped]
      | none => homeConfig ++ [program_name]

/-- Classify one enumerated item: skipped when its own base name starts
with `'.'`, otherwise paired with its destination directory. -/
def classifyItem (cfg : Config) (homeConfig : FsPath) (configPath : FsPath)
    (item : CFile) : Option (FsPath × FsPath) :=
  if startsWithDot item.base then none
  else some (configPath ++ item.dirs ++ [item.base], targetDirOf cfg homeConfig configPath item)

def get_config_files (cfg : Config) (homeConfig : FsPath) (configPath : FsPath)
    (files : List CFile) : List (FsPath × FsPath) :=
  files.filterMap (classifyItem cfg homeConfig configPath)

/-! ## check_program_compatibility (dotfile_manager.py lines 365-426) -/

/-- A `single_config_only` rule: warning and suggestion texts. -/
structure SingleRule where
  warning : String
  suggestion : String
deriving DecidableEq, Repr

/-- A `supports_multiple_configs` rule: info and suggestion texts. -/
structure MultiRule where
  info : String
  suggestion : String
deriving DecidableEq, Repr

/-- The program compatibility tables (`program_compatibility.json`). -/
structure ProgramCompatibility where
  single_config_only : List (String × SingleRule)
  supports_multiple_configs : List (String × MultiRule)
deriving DecidableEq, Repr

/-- The checker's result: two message lists. -/
structure Warnings where
  single_config_warnings : List String
  multiple_config_info : List String
deriving DecidableEq, Repr

/-- Insert one value into an insertion-ordered grouping (a Python dict of
lists): append to the existing group, else append a new group. -/
def groupInsert (m : List (String × List (FsPath × FsPath))) (k : String)
    (v : FsPath × FsPath) : List (String × List (FsPath × FsPath)) :=
  match m with
  | [] => [(k, [v])]
  | (k', vs) :: rest =>
      if k' == k then (k', vs ++ [v]) :: rest else (k', vs) :: groupInsert rest k v

/-- Group (source, destination) pairs by destination program name (the last
segment of the destination directory), preserving first-seen key order. -/
def groupPairs (pairs : List (FsPath × FsPath)) : List (String × List (FsPath × FsPath)) :=
  pairs.foldl (fun m st => groupInsert m (pathName st.2) st) []

/-- All (source, destination) pairs classified from every variant of a
widget, concatenated in variant enumeration order. -/
def allWidgetPairs (cfg : Config) (homeConfig repoPath : FsPath) (w : Widget) :
    List (FsPath × FsPath) :=
  (find_widget_configs w).foldl
    (fun acc v => acc ++ get_config_files cfg homeConfig (repoPath ++ [w.name, v.name]) v.files)
    []

/-- The grouping the checker works on: the one derived from the pairs
passed in, except that a widget argument with more than one variant
directory replaces it by the grouping over all the widget's variants. -/
def effectiveGroups (cfg : Config) (homeConfig repoPath : FsPath)
    (config_files : List (FsPath × FsPath)) (widget : Option Widget) :
    List (String × List (FsPath × FsPath)) :=
  let program_files := groupPairs config_files
  match widget with
  | none => program_files
  | some w =>
      let all_configs := find_widget_configs w
      let all_program_files := groupPairs (allWidgetPairs cfg homeConfig repoPath w)
      if all_configs.length > 1 then all_program_files else program_files

/-- The detail line the checker prints for one conflicting file: the name
of the source file's grandparent directory (its variant, for files one
level deep) and the file name. -/
def detailLine (st : FsPath × FsPath) : String :=
  "     - " ++ pathName (pathParent (pathParent st.1)) ++ ": " ++ pathName st.1

/-- Process one program group, folding its messages into the accumulated
warnings: programs with more than one file get a warning block
(`single_config_only`), an info block (`supports_multiple_configs`), or
nothing. -/
def checkGroupStep (compat : ProgramCompatibility) (ws : Warnings)
    (g : String × List (FsPath × FsPath)) : Warnings :=
  let (program_name, files) := g
  if files.length > 1 then
    match compat.single_config_only.lookup program_name with
    | some warning_info =>
        let warning_msg := "⚠️  " ++ pyToUpper program_name ++ ": " ++ warning_info.warning
        let suggestion_msg := "   💡 Suggestion: " ++ warning_info.suggestion
        let ws := { ws with
          single_config_warnings := ws.single_config_warnings ++ [warning_msg, suggestion_msg] }
        let file_details := files.map detailLine
        if file_details.isEmpty then ws
        else { ws with
          single_config_warnings :=
            ws.single_config_warnings ++ ["   Conflicting files:"] ++ file_details }
    | none =>
        match compat.supports_multiple_configs.lookup program_name with
        | some info_data =>
            let info_msg := "ℹ️  " ++ pyToUpper program_name ++ ": " ++ info_data.info
            let suggestion_msg := "   💡 Suggestion: " ++ info_data.suggestion
            { ws with
              multiple_config_info := ws.multiple_config_info ++ [info_msg, suggestion_msg] }
        | none => ws
  else ws

def check_program_compatibility (compat : ProgramCompatibility) (cfg : Config)
    (homeConfig repoPath : FsPath) (config_files : List (FsPath × FsPath))
    (widget : Option Widget) : Warnings :=
  (effectiveGroups cfg homeConfig repoPath config_files widget).foldl
    (checkGroupStep compat) ⟨[], []⟩

/-- The warning block one program group contributes to
`single_config_warnings`: nothing unless the group has more than one file
and its program is registered `single_config_only`. -/
def groupBlockS (compat : ProgramCompatibility) (g : String × List (FsPath × FsPath)) :
    List String :=
  if g.2.length > 1 then
    match compat.single_config_only.lookup g.1 with
    | some warning_info =>
        ["⚠️  " ++ pyToUpper g.1 ++ ": " ++ warning_info.warning,
         "   💡 Suggestion: " ++ warning_info.suggestion]
          ++ (if (g.2.map detailLine).isEmpty then []
              else "   Conflicting files:" :: g.2.map detailLine)
    | none => []
  else []

/-- The info block one program group contributes to
`multiple_config_info`: nothing unless the group has more than one file and
its program is registered `supports_multiple_configs` (and not
`single_config_only`). -/
def groupBlockM (compat : ProgramCompatibility) (g : String × List (FsPath × FsPath)) :
    List String :=
  if g.2.length > 1 then
    match compat.single_config_only.lookup g.1 with
    | some _ => []
    | none =>
        match compat.supports_multiple_configs.lookup g.1 with
        | some info_data =>
            ["ℹ️  " ++ pyToUpper g.1 ++ ": " ++ info_data.info,
             "   💡 Suggestion: " ++ info_data.suggestion]
        | none => []
  else []

/-! ## Filesystem model and the installer
(dotfile_manager.py lines 428-475 and 625-630)

The filesystem is the set of existing file paths and directory paths,
plus an oracle `failing` of destination paths whose copy raises an I/O
error (the code catches such errors per file). -/

structure FS where
  files : List FsPath
  dirs : List FsPath
  failing : List FsPath
deriving DecidableEq, Repr

/-- Python `path.exists()`: the path is an existing file or directory. -/
def pathExists (fs : FS) (p : FsPath) : Bool :=
  fs.files.contains p || fs.dirs.contains p

/-- Record a directory as existing (`mkdir(exist_ok=True)`). -/
def addDir (fs : FS) (d : FsPath) : FS :=
  { fs with dirs := if fs.dirs.contains d then fs.dirs else fs.dirs ++ [d] }

/-- Every nonempty ancestor of a path, shortest first, the path itself
last. -/
def ancestorPaths (p : FsPath) : List FsPath :=
  (List.range p.length).map (fun i => p.take (i + 1))

/-- Python `path.mkdir(parents=True, exist_ok=True)`: every missing
ancestor comes into existence. -/
def mkdirParents (fs : FS) (d : FsPath) : FS :=
  { fs with dirs := fs.dirs ++ (ancestorPaths d).filter (fun q => !(fs.dirs.contains q)) }

/-- Python `shutil.copy2(_, p)` on a fresh or existing destination `p`:
the destination exists as a file afterwards. -/
def addFile (fs : FS) (p : FsPath) : FS :=
  { fs with files := if fs.files.contains p then fs.files else fs.files ++ [p] }

/-- Decimal digit characters, as Python `str(i)` renders them. -/
def digitCh : Nat → Char
  | 0 => '0' | 1 => '1' | 2 => '2' | 3 => '3' | 4 => '4'
  | 5 => '5' | 6 => '6' | 7 => '7' | 8 => '8' | _ => '9'

/-- Little-endian decimal digits of a natural number. -/
def natDigitsRev (n : Nat) : List Char :=
  if h : n < 10 then [digitCh n]
  else digitCh (n % 10) :: natDigitsRev (n / 10)
decreasing_by exact Nat.div_lt_self (Nat.lt_of_lt_of_le (by decide) (Nat.le_of_not_lt h)) (by decide)

/-- Python `str(n)` for a natural number. -/
def natStr (n : Nat) : String := ⟨(natDigitsRev n).reverse⟩

/-- The `k`-th backup file name the code tries for an original name:
the bare name first, then `name.1`, `name.2`, and so on. -/
def backupCandidate (name : String) : Nat → String
  | 0 => name
  | k + 1 => name ++ "." ++ natStr (k + 1)

/-- Bounded search for the first free candidate index, mirroring the
`while backup_path.exists()` loop; `free` is decidable and the fuel is
chosen large enough (see `findFreeIdx_spec`) that it never runs out. -/
def findFreeIdx (free : Nat → Bool) : Nat → Nat → Nat
  | 0, k => k
  | fuel + 1, k => if free k then k else findFreeIdx free fuel (k + 1)

/-- Whether the `k`-th backup candidate for `name` is free in the backup
directory. -/
def backupFree (fs : FS) (backupDir : FsPath) (name : String) (k : Nat) : Bool :=
  !(pathExists fs (backupDir ++ [backupCandidate name k]))

/-- The backup path the `while` loop of `backup_existing` settles on. -/
def chooseBackupPath (fs : FS) (backupDir : FsPath) (name : String) : FsPath :=
  backupDir ++ [backupCandidate name
    (findFreeIdx (backupFree fs backupDir name) (fs.files.length + fs.dirs.length + 1) 0)]

/-- Backup an existing configuration file (dotfile_manager.py lines
428-452): no-op when the target does not exist or backups are disabled;
otherwise create the fixed backup directory under the user's home (when
configured to), pick the first free candidate name, and copy.  A failing
copy is caught and reported as failure. -/
def backup_existing (cfg : Config) (home : FsPath) (fs : FS) (target_path : FsPath) :
    Bool × FS :=
  if !(pathExists fs target_path) then (true, fs)
  else if !cfg.backup_existing then (true, fs)
  else
    let backup_dir := home ++ [".config_backup"]
    let fs1 := if cfg.create_backup_dir then addDir fs backup_dir else fs
    let backup_path := chooseBackupPath fs1 backup_dir (pathName target_path)
    if fs1.failing.contains backup_path then (false, fs1)
    else (true, addFile fs1 backup_path)

/-- Install one configuration file (dotfile_manager.py lines 454-475):
report success without touching anything in dry-run mode; otherwise create
the destination directory, back up any existing destination file, and copy
the source over, catching a failing copy. -/
def install_config (cfg : Config) (home : FsPath) (source_path : FsPath)
    (target_dir : FsPath) (fs : FS) : Bool × FS :=
  let target_path := target_dir ++ [pathName source_path]
  if cfg.dry_run then (true, fs)
  else
    let fs1 := mkdirParents fs target_dir
    match backup_existing cfg home fs1 target_path with
    | (false, fs2) => (false, fs2)
    | (true, fs2) =>
        if fs2.failing.contains target_path then (false, fs2)
        else (true, addFile fs2 target_path)

/-- The installation loop of `install_widget` (dotfile_manager.py lines
625-630): attempt every pair in sequence, reporting failure when any
single install failed. -/
def installAll (cfg : Config) (home : FsPath) (pairs : List (FsPath × FsPath))
    (fs : FS) : Bool × FS :=
  pairs.foldl
    (fun acc st =>
      let r := install_config cfg home st.1 st.2 acc.2
      (acc.1 && r.1, r.2))
    (true, fs)

/-- Install a widget (dotfile_manager.py lines 588-630, with
`use_config_fallback` left at its default `False`): select the best
variant, classify its files, run the compatibility check (warnings only),
then install every pair. -/
def install_widget (compat : ProgramCompatibility) (cfg : Config)
    (home homeConfig repoPath : FsPath) (w : Widget) (env : List (String × String))
    (fs : FS) : Bool × FS :=
  match select_best_config w env with
  | none => (false, fs)
  | some v =>
      let config_files := get_config_files cfg homeConfig (repoPath ++ [w.name, v.name]) v.files
      if config_files.isEmpty then (false, fs)
      else
        let _warnings :=
          check_program_compatibility compat cfg homeConfig repoPath config_files (some w)
        installAll cfg home config_files fs

/-- The per-pair success flags of the sequential installation loop, in
order: the trace showing every pair is attempted against the state left by
its predecessors. -/
def installFlags (cfg : Config) (home : FsPath) : List (FsPath × FsPath) → FS → List Bool
  | [], _ => []
  | st :: rest, fs =>
      let r := install_config cfg home st.1 st.2 fs
      r.1 :: installFlags cfg home rest r.2

/-- The filesystem state after attempting every pair in sequence. -/
def installFinalFS (cfg : Config) (home : FsPath) : List (FsPath × FsPath) → FS → FS
  | [], fs => fs
  | st :: rest, fs => installFinalFS cfg home rest (install_config cfg home st.1 st.2 fs).2

/-! ## Repository registry (dotfile_manager.py lines 673-831)

The registry file is line-oriented: `name|url|description|tags`.  To keep
the string surgery provable the component works on `List Char`, the
character sequence of a Python string; the file is its list of lines (a
field containing a newline could not round-trip through a real file, which
the round-trip theorem takes as an explicit hypothesis). -/

/-- A registry entry, as the quadruple `add_repo` persists.  The
`line_number` key `load_repo_list` adds is bookkeeping `save_repo_list`
ignores and is not modelled. -/
structure RepoEntry where
  name : List Char
  url : List Char
  description : List Char
  tags : List (List Char)
deriving DecidableEq, Repr

/-- Python `s.split(sep)` for a one-character separator: the segments
between occurrences of `c`; never empty, `"".split(c) == ['']`. -/
def splitOnChar (c : Char) : List Char → List (List Char)
  | [] => [[]]
  | x :: xs =>
      let r := splitOnChar c xs
      if x == c then [] :: r
      else
        match r with
        | [] => [[x]]
        | seg :: segs => (x :: seg) :: segs

/-- Python `sep.join(fields)` for a one-character separator. -/
def joinWithChar (c : Char) : List (List Char) → List Char
  | [] => []
  | [f] => f
  | f :: fs => f ++ c :: joinWithChar c fs

/-- Python `s.strip()` from the left only. -/
def trimLeftChars (l : List Char) : List Char := l.dropWhile Char.isWhitespace

/-- Python `s.strip()`: drop leading and trailing whitespace. -/
def trimChars (l : List Char) : List Char :=
  (trimLeftChars (trimLeftChars l.reverse).reverse)

/-- Parse one line of the registry file (dotfile_manager.py lines
679-694): strip it, skip blanks and `#` comments, split on `'|'`, require
at least two fields; description and tags are optional, and the tags field
is split on `','`. -/
def parseRepoLine (line : List Char) : Option RepoEntry :=
  let l := trimChars line
  if l.isEmpty then none
  else if l.take 1 == ['#'] then none
  else
    let parts := splitOnChar '|' l
    if parts.length ≥ 2 then
      some
        { name := trimChars (parts.getD 0 [])
          url := trimChars (parts.getD 1 [])
          description := if parts.length > 2 then trimChars (parts.getD 2 []) else []
          tags :=
            if parts.length > 3 then splitOnChar ',' (trimChars (parts.getD 3 []))
            else [] }
    else none

/-- Load the registry from its file's lines (dotfile_manager.py lines
673-697). -/
def load_repo_list (fileLines : List (List Char)) : List RepoEntry :=
  fileLines.filterMap parseRepoLine

/-- The record line `save_repo_list` writes for one entry. -/
def repoLine (r : RepoEntry) : List Char :=
  r.name ++ '|' :: r.url ++ '|' :: r.description ++ '|' :: joinWithChar ',' r.tags

/-- The three header comment lines and the blank line `save_repo_list`
writes before the records. -/
def repoFileHeader : List (List Char) :=
  [("# Compatible Dotfile Repositories").data,
   ("# Format: name|url|description|tags (comma-separated)").data,
   ("# Example: my-theme|https://github.com/user/my-theme.git|A beautiful theme|hyprland,eww").data,
   []]

/-- Rewrite the registry file (dotfile_manager.py lines 699-713). -/
def save_repo_list (repos : List RepoEntry) : List (List Char) :=
  repoFileHeader ++ repos.map repoLine

/-- Add a repository (dotfile_manager.py lines 745-813, with
`fetch_metadata` disabled so the description and tags are the ones passed
in): reject an entry duplicating an existing name or URL without touching
the file, otherwise append it and rewrite the file from the parsed
entries. -/
def add_repo (fileLines : List (List Char)) (url : List Char) (description : List Char)
    (tags : List (List Char)) (name : List Char) : Bool × List (List Char) :=
  let repos := load_repo_list fileLines
  if repos.any (fun r => r.name == name || r.url == url) then (false, fileLines)
  else (true, save_repo_list (repos ++ [⟨name, url, description, tags⟩]))

/-- Neither end of the character list is whitespace (vacuously true for
the empty list). -/
def noEdgeWs (l : List Char) : Bool :=
  !((l.headD 'x').isWhitespace) && !((l.getLastD 'x').isWhitespace)

/-- Conditions under which an entry survives the pipe-separated line
format unchanged: no field contains `'|'` or a newline or has whitespace
at either end, the name does not begin with `'#'`, and the tag list is
nonempty with every tag free of `','`, `'|'`, newlines, and edge
whitespace. -/
def storableEntry (r : RepoEntry) : Bool :=
  !r.name.contains '|' && !r.url.contains '|' && !r.description.contains '|' &&
  !r.name.contains '\n' && !r.url.contains '\n' && !r.description.contains '\n' &&
  noEdgeWs r.name && noEdgeWs r.url && noEdgeWs r.description &&
  !(r.name.take 1 == ['#']) &&
  !r.tags.isEmpty &&
  r.tags.all (fun t => !t.contains ',' && !t.contains '|' && !t.contains '\n' && noEdgeWs t)

end Dotmng


namespace Dotmng

/-! ## Lemmas about the variant scorer -/

/-- Folding an `if`-guarded constant increment over a list counts the
matching elements. -/
theorem foldl_add_if {α : Type} (p : α → Bool) (c : Nat) :
    ∀ (l : List α) (a : Nat),
      l.foldl (fun s x => if p x then s + c else s) a = a + c * l.countP p := by
  intro l
  induction l with
  | nil => intro a; simp
  | cons x xs ih =>
      intro a
      rw [List.foldl_cons, ih, List.countP_cons]
      cases hp : p x
      · simp [hp]
      · simp [hp]; ring

/-- The truthiness guard on the token pass is redundant: an empty
fingerprint value has no whitespace-separated tokens. -/
theorem tokenGuard_eq (nm : String) (kv : String × String) :
    (!(kv.2 == "") &&
        (pySplitWs (pyToLower kv.2)).any (fun part => strContains (pyToLower nm) part))
      = (pySplitWs (pyToLower kv.2)).any (fun part => strContains (pyToLower nm) part) := by
  cases h : kv.2 == ""
  · simp
  · have h2 : kv.2 = "" := eq_of_beq h
    rw [h2]
    simp [pySplitWs, pyToLower, splitWsGo]

/-- The code's two scoring passes compute the amended reference score. -/
theorem scoreVariant_eq_refScoreAmended (env : List (String × String)) (n : String) :
    scoreVariant env n = refScoreAmended env n := by
  have hex := foldl_add_if
    (fun kv : String × String => !(kv.2 == "") && strContains (pyToLower n) (pyToLower kv.2))
    2 env 0
  have htok := foldl_add_if
    (fun kv : String × String => !(kv.2 == "") &&
      (pySplitWs (pyToLower kv.2)).any (fun part => strContains (pyToLower n) part)) 1 env
  have hcong : env.countP (fun kv => !(kv.2 == "") &&
        (pySplitWs (pyToLower kv.2)).any (fun part => strContains (pyToLower n) part))
      = env.countP (fun kv =>
        (pySplitWs (pyToLower kv.2)).any (fun part => strContains (pyToLower n) part)) :=
    List.countP_congr (fun kv _ => by rw [tokenGuard_eq n kv])
  simp only [scoreVariant, refScoreAmended]
  rw [htok, hex, hcong]
  ring

/-- Folding while skipping `default`-named variants is folding over the
list with those variants filtered out. -/
theorem foldl_skip_default {β : Type} (g : β → Variant → β) :
    ∀ (l : List Variant) (b : β),
      l.foldl (fun a c => if c.name == "default" then a else g a c) b
        = (l.filter (fun v => !(v.name == "default"))).foldl g b := by
  intro l
  induction l with
  | nil => intro b; rfl
  | cons x xs ih =>
      intro b
      rw [List.foldl_cons, List.filter_cons]
      cases hx : x.name == "default"
      · simp only [Bool.not_false, if_true, Bool.false_eq_true, if_false, List.foldl_cons]
        exact ih (g b x)
      · simp only [Bool.not_true, if_true, Bool.false_eq_true, if_false]
        exact ih b

/-- Filtering the `default` variants back out of `find_widget_configs`
recovers the non-`default` variants. -/
theorem find_widget_configs_filter (w : Widget) :
    (find_widget_configs w).filter (fun v => !(v.name == "default"))
      = w.variants.filter (fun v => !(v.name == "default")) := by
  unfold find_widget_configs
  cases hf : w.variants.find? (fun v => v.name == "default") with
  | none => simp
  | some d =>
      have hd := List.find?_some hf
      rw [List.filter_append, List.filter_filter]
      simp [List.filter_cons, hd, Bool.and_self]

/-- The code's selector and the amended reference selector agree on every
widget and fingerprint. -/
theorem select_eq_refSelectAmended (w : Widget) (env : List (String × String)) :
    select_best_config w env = refSelectAmended w env := by
  unfold select_best_config refSelectAmended refSelectWith
  by_cases hc : (find_widget_configs w).isEmpty
  · have hnil : find_widget_configs w = [] := by
      cases h : find_widget_configs w with
      | nil => rfl
      | cons a l => rw [h] at hc; simp at hc
    have hfil : w.variants.filter (fun v => !(v.name == "default")) = [] := by
      rw [← find_widget_configs_filter, hnil]; rfl
    have hfind : w.variants.find? (fun v => v.name == "default") = none := by
      cases hf : w.variants.find? (fun v => v.name == "default") with
      | none => rfl
      | some d =>
          exfalso
          unfold find_widget_configs at hnil
          rw [hf] at hnil
          exact absurd (List.append_eq_nil.mp hnil).2 (by simp)
    simp only [hc, if_true, hfil, hfind, List.foldl_nil]
  · simp only [hc, if_false]
    rw [foldl_skip_default, find_widget_configs_filter]
    have hfun :
        (fun (acc : Option Variant × Nat) (c : Variant) =>
            let score := scoreVariant env c.name
            if score > acc.2 then (some c, score) else acc)
          = (fun (acc : Option Variant × Nat) (v : Variant) =>
            let s := refScoreAmended env v.name
            if s > acc.2 then (some v, s) else acc) := by
      funext acc c
      simp only [scoreVariant_eq_refScoreAmended]
    rw [hfun]
    simp

/-! ## Claim C1 -/

/-- Claim C1, counterexample: the claim's reference definition awards the
2-point exact-substring bonus also for an empty fingerprint value (the
empty string is a substring of every variant name), whereas the code's
truthiness guard skips empty values.  With the fingerprint `{shell: ""}`
and variants `["alpha", "default"]` the code falls back to `default` but
the reference definition selects `alpha` (score 2). -/
theorem select_best_config_ne_refSelect :
    select_best_config ⟨"w", [⟨"alpha", []⟩, ⟨"default", []⟩]⟩ [("shell", "")]
      = some ⟨"default", []⟩ ∧
    refSelect ⟨"w", [⟨"alpha", []⟩, ⟨"default", []⟩]⟩ [("shell", "")]
      = some ⟨"alpha", []⟩ ∧
    select_best_config ⟨"w", [⟨"alpha", []⟩, ⟨"default", []⟩]⟩ [("shell", "")]
      ≠ refSelect ⟨"w", [⟨"alpha", []⟩, ⟨"default", []⟩]⟩ [("shell", "")] := by
  refine ⟨by decide, by decide, by decide⟩

/-- Claim C1, amended: `select_best_config` equals the claim's reference
definition once the 2-point exact-substring bonus is restricted to
non-empty fingerprint values: enumerate the widget's variants excluding
`default`; add 2 for every non-empty fingerprint value that is a
case-insensitive substring of the variant name and additionally 1 for
every fingerprint value any of whose whitespace-separated tokens is such a
substring (the same key can earn both bonuses); return the strictly
highest scorer, a tie keeping the first-seen variant; when no variant
scores above zero, or there are no non-default variants, return the
`default` variant when it exists and nothing otherwise. -/
theorem select_best_config_eq_reference :
    ∀ (w : Widget) (env : List (String × String)),
      select_best_config w env = refSelectAmended w env :=
  fun w env => select_eq_refSelectAmended w env

/-! ## Claim C2 -/

/-- Claim C2, counterexample: for the fingerprint
`{window_manager: "hyprland", shell: "zsh"}` the scorer assigns variant
`hyprland-zsh` the score 6, not 4: each of the two fingerprint values
earns the 2-point exact-substring bonus and additionally the 1-point
token bonus, since its single whitespace-token is also a substring of the
variant name. -/
theorem scoreVariant_hyprland_zsh_ne_4 :
    scoreVariant [("window_manager", "hyprland"), ("shell", "zsh")] "hyprland-zsh" ≠ 4 := by
  decide

/-- Claim C2, amended: for the fingerprint
`{window_manager: "hyprland", shell: "zsh"}` and a widget with exactly
the variants `["hyprland-zsh", "hyprland", "default"]`, the scorer
assigns `hyprland-zsh` the score 6 (2+2 exact bonuses plus 1+1 token
bonuses), assigns `hyprland` the score 3 (2 exact plus 1 token), and
selects `hyprland-zsh`. -/
theorem select_hyprland_zsh_example :
    scoreVariant [("window_manager", "hyprland"), ("shell", "zsh")] "hyprland-zsh" = 6 ∧
    scoreVariant [("window_manager", "hyprland"), ("shell", "zsh")] "hyprland" = 3 ∧
    select_best_config
        ⟨"w", [⟨"hyprland-zsh", []⟩, ⟨"hyprland", []⟩, ⟨"default", []⟩]⟩
        [("window_manager", "hyprland"), ("shell", "zsh")]
      = some ⟨"hyprland-zsh", []⟩ := by
  refine ⟨by decide, by decide, by decide⟩

end Dotmng

namespace Dotmng

/-! ## Lemmas about the file classifier -/

/-- A filterMap by a guarded `some` is filter-then-map. -/
theorem filterMap_guard_eq {α β : Type} (p : α → Bool) (g : α → β) :
    ∀ l : List α,
      l.filterMap (fun a => if p a then none else some (g a))
        = (l.filter (fun a => !(p a))).map g := by
  intro l
  induction l with
  | nil => rfl
  | cons x xs ih =>
      rw [List.filterMap_cons, List.filter_cons]
      cases hx : p x
      · simp only [Bool.not_false, if_true, Bool.false_eq_true, if_false, List.map_cons, ih]
      · simp only [Bool.not_true, if_true, Bool.false_eq_true, if_false, ih]

/-- The classifier keeps exactly the files whose own base name does not
start with `'.'`, in order, each paired with its computed destination. -/
theorem get_config_files_eq (cfg : Config) (homeConfig configPath : FsPath)
    (files : List CFile) :
    get_config_files cfg homeConfig configPath files
      = (files.filter (fun f => !(startsWithDot f.base))).map
          (fun f => (configPath ++ f.dirs ++ [f.base],
                     targetDirOf cfg homeConfig configPath f)) := by
  unfold get_config_files classifyItem
  exact filterMap_guard_eq (fun f : CFile => startsWithDot f.base)
    (fun f => (configPath ++ f.dirs ++ [f.base], targetDirOf cfg homeConfig configPath f)) files

/-! ## Claim C3 -/

/-- Claim C3: every non-hidden file classified by `get_config_files` is
mapped to `home_config_dir / <first path segment>` when it lies under at
least one subdirectory — through the owning widget's custom-mapping entry
for that segment when one exists — and to
`home_config_dir / <file name without extension>` when it sits directly at
the variant root.  In particular a root file `config.toml` maps to
`home_config_dir/config`, and a file `alacritty/alacritty.yml` maps to
`home_config_dir/alacritty` absent any custom mapping and to the mapped
name when a custom mapping for `alacritty` exists. -/
theorem get_config_files_destinations :
    (∀ (cfg : Config) (homeConfig configPath : FsPath) (files : List CFile) (f : CFile),
      f ∈ files → startsWithDot f.base = false →
      (∀ d ds, f.dirs = d :: ds →
          (configPath ++ f.dirs ++ [f.base],
            homeConfig ++
              [((((cfg.custom_mappings.lookup (pathName (pathParent configPath))).getD
                  []).lookup d).getD d)])
            ∈ get_config_files cfg homeConfig configPath files) ∧
        (f.dirs = [] →
          (configPath ++ [f.base], homeConfig ++ [pyStem f.base])
            ∈ get_config_files cfg homeConfig configPath files)) ∧
    get_config_files ⟨true, true, false, []⟩ ["home", ".config"]
        ["repo", "widget", "variant"] [⟨[], "config.toml"⟩]
      = [(["repo", "widget", "variant", "config.toml"], ["home", ".config", "config"])] ∧
    get_config_files ⟨true, true, false, []⟩ ["home", ".config"]
        ["repo", "widget", "variant"] [⟨["alacritty"], "alacritty.yml"⟩]
      = [(["repo", "widget", "variant", "alacritty", "alacritty.yml"],
          ["home", ".config", "alacritty"])] ∧
    get_config_files ⟨true, true, false, [("widget", [("alacritty", "alacritty-hypr")])]⟩
        ["home", ".config"] ["repo", "widget", "variant"] [⟨["alacritty"], "alacritty.yml"⟩]
      = [(["repo", "widget", "variant", "alacritty", "alacritty.yml"],
          ["home", ".config", "alacritty-hypr"])] := by
  refine ⟨?_, by decide, by decide, by decide⟩
  intro cfg homeConfig configPath files f hf hh
  have hmem : ∀ out, classifyItem cfg homeConfig configPath f = some out →
      out ∈ get_config_files cfg homeConfig configPath files := by
    intro out hout
    exact List.mem_filterMap.mpr ⟨f, hf, hout⟩
  constructor
  · intro d ds hd
    apply hmem
    unfold classifyItem targetDirOf
    rw [hh, hd]
    simp only [Bool.false_eq_true, if_false]
    cases hl :
        (((cfg.custom_mappings.lookup (pathName (pathParent configPath))).getD []).lookup d) with
    | none => simp [hl, ← hd]
    | some m => simp [hl, ← hd]
  · intro hd
    apply hmem
    unfold classifyItem targetDirOf
    rw [hh, hd]
    simp only [Bool.false_eq_true, if_false, List.append_nil]

/-- Claim C3, witness: the general clause instantiated at the
`alacritty/alacritty.yml` example with an empty custom-mapping table. -/
theorem get_config_files_destinations_witness :
    (["repo", "widget", "variant", "alacritty", "alacritty.yml"],
        ["home", ".config", "alacritty"])
      ∈ get_config_files ⟨true, true, false, []⟩ ["home", ".config"]
          ["repo", "widget", "variant"] [⟨["alacritty"], "alacritty.yml"⟩] := by
  exact (get_config_files_destinations.1 ⟨true, true, false, []⟩ ["home", ".config"]
    ["repo", "widget", "variant"] [⟨["alacritty"], "alacritty.yml"⟩]
    ⟨["alacritty"], "alacritty.yml"⟩ (by decide) (by decide)).1 "alacritty" [] rfl

/-! ## Claim C10 -/

/-- Claim C10: the classifier's hidden-file skip tests only the file's own
base name — the output is exactly the files whose base name does not start
with `'.'`, so a file inside a dot-named subdirectory is kept (and the
dot-named first segment becomes its destination program name), while a
file whose own name starts with `'.'` is skipped even at the variant
root. -/
theorem get_config_files_hidden_skip :
    (∀ (cfg : Config) (homeConfig configPath : FsPath) (files : List CFile),
      get_config_files cfg homeConfig configPath files
        = (files.filter (fun f => !(startsWithDot f.base))).map
            (fun f => (configPath ++ f.dirs ++ [f.base],
                       targetDirOf cfg homeConfig configPath f))) ∧
    get_config_files ⟨true, true, false, []⟩ ["home", ".config"]
        ["repo", "widget", "variant"] [⟨[".hidden-dir"], "conf.yml"⟩]
      = [(["repo", "widget", "variant", ".hidden-dir", "conf.yml"],
          ["home", ".config", ".hidden-dir"])] ∧
    get_config_files ⟨true, true, false, []⟩ ["home", ".config"]
        ["repo", "widget", "variant"] [⟨[], ".bashrc"⟩]
      = [] := by
  exact ⟨get_config_files_eq, by decide, by decide⟩

end Dotmng

namespace Dotmng

/-! ## Lemmas about the compatibility checker -/

/-- Processing one group appends exactly its two blocks. -/
theorem checkGroupStep_eq (compat : ProgramCompatibility) (ws : Warnings)
    (g : String × List (FsPath × FsPath)) :
    checkGroupStep compat ws g
      = ⟨ws.single_config_warnings ++ groupBlockS compat g,
         ws.multiple_config_info ++ groupBlockM compat g⟩ := by
  rcases g with ⟨p, files⟩
  unfold checkGroupStep groupBlockS groupBlockM
  by_cases hlen : files.length > 1
  · simp only [hlen, if_true]
    cases hs : compat.single_config_only.lookup p with
    | some warning_info =>
        have hne : files ≠ [] := by
          intro h; rw [h] at hlen; simp at hlen
        have hdet : (files.map detailLine).isEmpty = false := by
          cases files with
          | nil => exact absurd rfl hne
          | cons a l => rfl
        simp [hdet, List.append_assoc]
    | none =>
        cases hm : compat.supports_multiple_configs.lookup p with
        | some info_data => simp
        | none => simp
  · simp only [hlen, if_false]
    simp

/-- Folding the group processor produces the concatenation of all group
blocks. -/
theorem checkFold_eq (compat : ProgramCompatibility) :
    ∀ (G : List (String × List (FsPath × FsPath))) (ws : Warnings),
      G.foldl (checkGroupStep compat) ws
        = ⟨ws.single_config_warnings ++ (G.map (groupBlockS compat)).flatten,
           ws.multiple_config_info ++ (G.map (groupBlockM compat)).flatten⟩ := by
  intro G
  induction G with
  | nil => intro ws; simp
  | cons g gs ih =>
      intro ws
      rw [List.foldl_cons, checkGroupStep_eq, ih]
      simp [List.append_assoc]

/-- The checker's output is the concatenation of the per-group blocks over
the effective grouping. -/
theorem check_program_compatibility_eq (compat : ProgramCompatibility) (cfg : Config)
    (homeConfig repoPath : FsPath) (config_files : List (FsPath × FsPath))
    (widget : Option Widget) :
    check_program_compatibility compat cfg homeConfig repoPath config_files widget
      = ⟨((effectiveGroups cfg homeConfig repoPath config_files widget).map
            (groupBlockS compat)).flatten,
         ((effectiveGroups cfg homeConfig repoPath config_files widget).map
            (groupBlockM compat)).flatten⟩ := by
  unfold check_program_compatibility
  rw [checkFold_eq]
  simp

/-- Inclusion of a needle placed between two haystack parts. -/
theorem listContainsSub_of_isPrefixOf {n h : List Char} (hp : n.isPrefixOf h = true) :
    listContainsSub n h = true := by
  cases h with
  | nil =>
      cases n with
      | nil => rfl
      | cons a l => simp [List.isPrefixOf] at hp
  | cons c rest =>
      unfold listContainsSub
      rw [hp, Bool.true_or]

theorem isPrefixOf_append_self : ∀ (n y : List Char), n.isPrefixOf (n ++ y) = true := by
  intro n
  induction n with
  | nil => intro y; simp [List.isPrefixOf]
  | cons a l ih =>
      intro y
      simp only [List.cons_append, List.isPrefixOf_cons₂_self]
      exact ih y

theorem listContainsSub_mid (n yz : List Char) :
    ∀ x : List Char, listContainsSub n (x ++ (n ++ yz)) = true := by
  intro x
  induction x with
  | nil =>
      rw [List.nil_append]
      exact listContainsSub_of_isPrefixOf (isPrefixOf_append_self n yz)
  | cons a l ih =>
      rw [List.cons_append]
      unfold listContainsSub
      rw [ih, Bool.or_true]

/-- The warning message contains the uppercased program name. -/
theorem warnMsg_contains (pre p w : String) :
    strContains (pre ++ pyToUpper p ++ ": " ++ w) (pyToUpper p) = true := by
  unfold strContains
  simp only [String.data_append, List.append_assoc]
  exact listContainsSub_mid (pyToUpper p).data _ pre.data

end Dotmng

namespace Dotmng

/-- Claim C4: in the checker's result, every destination program name with
more than one contributing file contributes exactly one block: when it is
registered `single_config_only`, a warning containing the uppercased name,
a suggestion, a header, and one detail line per conflicting file, all of
which appear in `single_config_warnings`; when it is registered
`supports_multiple_configs`, only an info-plus-suggestion block in
`multiple_config_info` (no detail lines, no warning); when it is
registered under neither, no message of either kind.  The two result
lists are exactly the concatenations of the per-group blocks. -/
theorem check_program_compatibility_messages :
    ∀ (compat : ProgramCompatibility) (cfg : Config) (homeConfig repoPath : FsPath)
      (config_files : List (FsPath × FsPath)) (widget : Option Widget)
      (p : String) (fs : List (FsPath × FsPath)),
      (p, fs) ∈ effectiveGroups cfg homeConfig repoPath config_files widget →
      fs.length > 1 →
      ((check_program_compatibility compat cfg homeConfig repoPath config_files
            widget).single_config_warnings
          = ((effectiveGroups cfg homeConfig repoPath config_files widget).map
              (groupBlockS compat)).flatten
        ∧ (check_program_compatibility compat cfg homeConfig repoPath config_files
            widget).multiple_config_info
          = ((effectiveGroups cfg homeConfig repoPath config_files widget).map
              (groupBlockM compat)).flatten)
      ∧ (∀ warning_info, compat.single_config_only.lookup p = some warning_info →
          groupBlockS compat (p, fs)
            = ["⚠️  " ++ pyToUpper p ++ ": " ++ warning_info.warning,
               "   💡 Suggestion: " ++ warning_info.suggestion,
               "   Conflicting files:"] ++ fs.map detailLine
          ∧ (fs.map detailLine).length = fs.length
          ∧ strContains ("⚠️  " ++ pyToUpper p ++ ": " ++ warning_info.warning)
              (pyToUpper p) = true
          ∧ groupBlockM compat (p, fs) = []
          ∧ ∀ s ∈ groupBlockS compat (p, fs),
              s ∈ (check_program_compatibility compat cfg homeConfig repoPath config_files
                    widget).single_config_warnings)
      ∧ (compat.single_config_only.lookup p = none →
          ∀ info_data, compat.supports_multiple_configs.lookup p = some info_data →
          groupBlockM compat (p, fs)
            = ["ℹ️  " ++ pyToUpper p ++ ": " ++ info_data.info,
               "   💡 Suggestion: " ++ info_data.suggestion]
          ∧ groupBlockS compat (p, fs) = []
          ∧ ∀ s ∈ groupBlockM compat (p, fs),
              s ∈ (check_program_compatibility compat cfg homeConfig repoPath config_files
                    widget).multiple_config_info)
      ∧ (compat.single_config_only.lookup p = none →
          compat.supports_multiple_configs.lookup p = none →
          groupBlockS compat (p, fs) = [] ∧ groupBlockM compat (p, fs) = []) := by
  intro compat cfg homeConfig repoPath config_files widget p fs hmem hlen
  have hres := check_program_compatibility_eq compat cfg homeConfig repoPath config_files widget
  have hne : fs ≠ [] := by intro h; rw [h] at hlen; simp at hlen
  have hdet : (fs.map detailLine).isEmpty = false := by
    cases fs with
    | nil => exact absurd rfl hne
    | cons a l => rfl
  refine ⟨⟨by rw [hres], by rw [hres]⟩, ?_, ?_, ?_⟩
  · intro warning_info hs
    have hblockS : groupBlockS compat (p, fs)
        = ["⚠️  " ++ pyToUpper p ++ ": " ++ warning_info.warning,
           "   💡 Suggestion: " ++ warning_info.suggestion,
           "   Conflicting files:"] ++ fs.map detailLine := by
      unfold groupBlockS
      simp [hlen, hs, hdet]
    have hblockM : groupBlockM compat (p, fs) = [] := by
      unfold groupBlockM
      simp [hlen, hs]
    refine ⟨hblockS, by simp, warnMsg_contains "⚠️  " p warning_info.warning, hblockM, ?_⟩
    intro s hsmem
    rw [hres]
    exact List.mem_flatten.mpr
      ⟨groupBlockS compat (p, fs), List.mem_map_of_mem _ hmem, hsmem⟩
  · intro h1 info_data h2
    have hblockM : groupBlockM compat (p, fs)
        = ["ℹ️  " ++ pyToUpper p ++ ": " ++ info_data.info,
           "   💡 Suggestion: " ++ info_data.suggestion] := by
      unfold groupBlockM
      simp [hlen, h1, h2]
    have hblockS : groupBlockS compat (p, fs) = [] := by
      unfold groupBlockS
      simp [hlen, h1]
    refine ⟨hblockM, hblockS, ?_⟩
    intro s hsmem
    rw [hres]
    exact List.mem_flatten.mpr
      ⟨groupBlockM compat (p, fs), List.mem_map_of_mem _ hmem, hsmem⟩
  · intro h1 h2
    constructor
    · unfold groupBlockS; simp [hlen, h1]
    · unfold groupBlockM; simp [hlen, h1, h2]

end Dotmng

namespace Dotmng

/-- Claim C4, witness: two files destined for `alacritty`, registered
`single_config_only`, instantiating the theorem's single-config clause. -/
theorem check_program_compatibility_messages_witness :
    groupBlockM ⟨[("alacritty", ⟨"only one config", "rename them"⟩)],
        [("eww", ⟨"multi ok", "use flags"⟩)]⟩
      ("alacritty",
        [(["repo", "w", "hyprland", "alacritty", "a.yml"], ["home", ".config", "alacritty"]),
         (["repo", "w", "sway", "alacritty", "b.yml"], ["home", ".config", "alacritty"])]) = []
    ∧ strContains ("⚠️  " ++ pyToUpper "alacritty" ++ ": " ++ "only one config")
        (pyToUpper "alacritty") = true := by
  have h := check_program_compatibility_messages
    ⟨[("alacritty", ⟨"only one config", "rename them"⟩)], [("eww", ⟨"multi ok", "use flags"⟩)]⟩
    ⟨true, true, false, []⟩ ["home", ".config"] ["repo"]
    [(["repo", "w", "hyprland", "alacritty", "a.yml"], ["home", ".config", "alacritty"]),
     (["repo", "w", "sway", "alacritty", "b.yml"], ["home", ".config", "alacritty"])]
    none "alacritty"
    [(["repo", "w", "hyprland", "alacritty", "a.yml"], ["home", ".config", "alacritty"]),
     (["repo", "w", "sway", "alacritty", "b.yml"], ["home", ".config", "alacritty"])]
    (by decide) (by decide)
  have h2 := h.2.1 ⟨"only one config", "rename them"⟩ (by decide)
  exact ⟨h2.2.2.2.1, h2.2.2.1⟩

/-! ## Claim C5 -/

/-- Claim C5: when `check_program_compatibility` is called with a widget
argument whose widget has more than one variant directory, the result is
the one computed from the union of the classified files of all the
widget's variants, replacing the pairs passed in; with at most one variant
directory the passed pairs are used. -/
theorem check_widget_regrouping :
    ∀ (compat : ProgramCompatibility) (cfg : Config) (homeConfig repoPath : FsPath)
      (config_files : List (FsPath × FsPath)) (w : Widget),
      ((find_widget_configs w).length > 1 →
        check_program_compatibility compat cfg homeConfig repoPath config_files (some w)
          = check_program_compatibility compat cfg homeConfig repoPath
              (allWidgetPairs cfg homeConfig repoPath w) none)
      ∧ ((find_widget_configs w).length ≤ 1 →
        check_program_compatibility compat cfg homeConfig repoPath config_files (some w)
          = check_program_compatibility compat cfg homeConfig repoPath config_files none) := by
  intro compat cfg homeConfig repoPath config_files w
  constructor
  · intro h
    unfold check_program_compatibility effectiveGroups
    dsimp only
    rw [if_pos h]
  · intro h
    unfold check_program_compatibility effectiveGroups
    dsimp only
    rw [if_neg (by omega)]

/-- Claim C5, witness: a two-variant widget regroups from the union of its
variants' files; a one-variant widget keeps the passed pairs. -/
theorem check_widget_regrouping_witness :
    (check_program_compatibility ⟨[], []⟩ ⟨true, true, false, []⟩ ["home", ".config"] ["repo"]
        [(["x"], ["home", ".config", "a"])]
        (some ⟨"w", [⟨"hyprland", [⟨["eww"], "e.yml"⟩]⟩, ⟨"default", [⟨["bar"], "b.yml"⟩]⟩]⟩)
      = check_program_compatibility ⟨[], []⟩ ⟨true, true, false, []⟩ ["home", ".config"] ["repo"]
          (allWidgetPairs ⟨true, true, false, []⟩ ["home", ".config"] ["repo"]
            ⟨"w", [⟨"hyprland", [⟨["eww"], "e.yml"⟩]⟩, ⟨"default", [⟨["bar"], "b.yml"⟩]⟩]⟩)
          none)
    ∧ (check_program_compatibility ⟨[], []⟩ ⟨true, true, false, []⟩ ["home", ".config"] ["repo"]
        [(["x"], ["home", ".config", "a"])] (some ⟨"w", [⟨"default", []⟩]⟩)
      = check_program_compatibility ⟨[], []⟩ ⟨true, true, false, []⟩ ["home", ".config"] ["repo"]
          [(["x"], ["home", ".config", "a"])] none) := by
  constructor
  · exact (check_widget_regrouping ⟨[], []⟩ ⟨true, true, false, []⟩ ["home", ".config"] ["repo"]
      [(["x"], ["home", ".config", "a"])]
      ⟨"w", [⟨"hyprland", [⟨["eww"], "e.yml"⟩]⟩, ⟨"default", [⟨["bar"], "b.yml"⟩]⟩]⟩).1
      (by decide)
  · exact (check_widget_regrouping ⟨[], []⟩ ⟨true, true, false, []⟩ ["home", ".config"] ["repo"]
      [(["x"], ["home", ".config", "a"])] ⟨"w", [⟨"default", []⟩]⟩).2 (by decide)

end Dotmng

namespace Dotmng

/-! ## Lemmas about the installer -/

theorem contains_true_iff {α : Type} [BEq α] [LawfulBEq α] (l : List α) (a : α) :
    l.contains a = true ↔ a ∈ l := by
  simp [List.contains]

/-- Claim C7: in dry-run mode `install_config` performs no filesystem
mutation whatsoever — no directory creation, no backup, no copy — and
returns success, for every source, destination, backup configuration, and
pre-existing filesystem state. -/
theorem install_config_dry_run :
    ∀ (cfg : Config) (home source_path target_dir : FsPath) (fs : FS),
      cfg.dry_run = true →
      install_config cfg home source_path target_dir fs = (true, fs) := by
  intro cfg home source_path target_dir fs h
  unfold install_config
  dsimp only
  rw [if_pos h]

/-- Claim C7, witness: a dry-run install against a filesystem that has a
conflicting destination file leaves the state untouched and succeeds. -/
theorem install_config_dry_run_witness :
    install_config ⟨true, true, true, []⟩ ["home"] ["repo", "w", "v", "conf.toml"]
        ["home", ".config", "conf"]
        ⟨[["home", ".config", "conf", "conf.toml"]], [], []⟩
      = (true, ⟨[["home", ".config", "conf", "conf.toml"]], [], []⟩) :=
  install_config_dry_run ⟨true, true, true, []⟩ ["home"] ["repo", "w", "v", "conf.toml"]
    ["home", ".config", "conf"] ⟨[["home", ".config", "conf", "conf.toml"]], [], []⟩ rfl

/-- The sequential install loop computes the conjunction of the per-pair
flags and threads the state through every pair. -/
theorem installAll_trace (cfg : Config) (home : FsPath) :
    ∀ (pairs : List (FsPath × FsPath)) (fs : FS) (b : Bool),
      pairs.foldl
          (fun acc st =>
            let r := install_config cfg home st.1 st.2 acc.2
            (acc.1 && r.1, r.2))
          (b, fs)
        = (b && (installFlags cfg home pairs fs).all id, installFinalFS cfg home pairs fs) := by
  intro pairs
  induction pairs with
  | nil => intro fs b; simp [installFlags, installFinalFS]
  | cons st rest ih =>
      intro fs b
      rw [List.foldl_cons]
      dsimp only
      rw [ih]
      simp [installFlags, installFinalFS, Bool.and_assoc]

end Dotmng

namespace Dotmng

/-- Claim C8: `install_widget` attempts its (source, destination) pairs in
sequence — the final state is the fold of `install_config` over every
pair, so a failure on one pair does not prevent the remaining pairs from
being attempted — and it reports success exactly when every pair's install
succeeded. -/
theorem install_widget_reports :
    ∀ (compat : ProgramCompatibility) (cfg : Config) (home homeConfig repoPath : FsPath)
      (w : Widget) (env : List (String × String)) (fs : FS) (v : Variant),
      select_best_config w env = some v →
      get_config_files cfg homeConfig (repoPath ++ [w.name, v.name]) v.files ≠ [] →
      install_widget compat cfg home homeConfig repoPath w env fs
          = ((installFlags cfg home
                (get_config_files cfg homeConfig (repoPath ++ [w.name, v.name]) v.files) fs).all id,
             installFinalFS cfg home
                (get_config_files cfg homeConfig (repoPath ++ [w.name, v.name]) v.files) fs)
        ∧ ((install_widget compat cfg home homeConfig repoPath w env fs).1 = true ↔
            ∀ flag ∈ installFlags cfg home
                (get_config_files cfg homeConfig (repoPath ++ [w.name, v.name]) v.files) fs,
              flag = true) := by
  intro compat cfg home homeConfig repoPath w env fs v hsel hne
  have hmain : install_widget compat cfg home homeConfig repoPath w env fs
      = ((installFlags cfg home
            (get_config_files cfg homeConfig (repoPath ++ [w.name, v.name]) v.files) fs).all id,
         installFinalFS cfg home
            (get_config_files cfg homeConfig (repoPath ++ [w.name, v.name]) v.files) fs) := by
    unfold install_widget
    rw [hsel]
    dsimp only
    rw [if_neg (by simp [List.isEmpty_iff, hne])]
    unfold installAll
    rw [installAll_trace]
    simp
  refine ⟨hmain, ?_⟩
  rw [hmain]
  simp [List.all_eq_true]

/-- Claim C8, witness: a widget whose `default` variant holds one file;
the result equals the one-pair trace and the success iff holds. -/
theorem install_widget_reports_witness :
    install_widget ⟨[], []⟩ ⟨true, true, false, []⟩ ["home"] ["home", ".config"] ["repo"]
        ⟨"w", [⟨"default", [⟨[], "conf.toml"⟩]⟩]⟩ [] ⟨[], [], []⟩
      = ((installFlags ⟨true, true, false, []⟩ ["home"]
            (get_config_files ⟨true, true, false, []⟩ ["home", ".config"]
              (["repo"] ++ ["w", "default"]) [⟨[], "conf.toml"⟩]) ⟨[], [], []⟩).all id,
         installFinalFS ⟨true, true, false, []⟩ ["home"]
            (get_config_files ⟨true, true, false, []⟩ ["home", ".config"]
              (["repo"] ++ ["w", "default"]) [⟨[], "conf.toml"⟩]) ⟨[], [], []⟩) :=
  (install_widget_reports ⟨[], []⟩ ⟨true, true, false, []⟩ ["home"] ["home", ".config"] ["repo"]
    ⟨"w", [⟨"default", [⟨[], "conf.toml"⟩]⟩]⟩ [] ⟨[], [], []⟩ ⟨"default", [⟨[], "conf.toml"⟩]⟩
    (by decide) (by decide)).1

end Dotmng

namespace Dotmng

/-! ## Lemmas about the backup name choice -/

theorem digitCh_inj : ∀ d1, d1 < 10 → ∀ d2, d2 < 10 → digitCh d1 = digitCh d2 → d1 = d2 := by
  decide

theorem natDigitsRev_ne_nil (n : Nat) : natDigitsRev n ≠ [] := by
  unfold natDigitsRev
  split <;> simp

theorem natDigitsRev_inj : ∀ m n, natDigitsRev m = natDigitsRev n → m = n := by
  intro m
  induction m using Nat.strong_induction_on with
  | _ m ih =>
      intro n h
      unfold natDigitsRev at h
      split at h <;> split at h
      · injection h with h1 _
        exact digitCh_inj _ (by assumption) _ (by assumption) h1
      · injection h with h1 h2
        exact absurd h2.symm (natDigitsRev_ne_nil _)
      · injection h with h1 h2
        exact absurd h2 (natDigitsRev_ne_nil _)
      · injection h with h1 h2
        have hm10 : ¬ m < 10 := by assumption
        have hd : m % 10 = n % 10 :=
          digitCh_inj _ (Nat.mod_lt _ (by decide)) _ (Nat.mod_lt _ (by decide)) h1
        have hq : m / 10 = n / 10 :=
          ih (m / 10) (Nat.div_lt_self (by omega) (by decide)) (n / 10) h2
        omega

theorem string_data_inj : ∀ {s t : String}, s.data = t.data → s = t := by
  intro s t h
  cases s
  cases t
  exact congrArg String.mk (by simpa using h)

theorem natStr_inj : ∀ m n, natStr m = natStr n → m = n := by
  intro m n h
  unfold natStr at h
  have hdata : (natDigitsRev m).reverse = (natDigitsRev n).reverse := congrArg String.data h
  exact natDigitsRev_inj m n (List.reverse_inj.mp hdata)

theorem backupCandidate_inj (name : String) :
    ∀ j k, backupCandidate name j = backupCandidate name k → j = k := by
  intro j k h
  cases j with
  | zero =>
      cases k with
      | zero => rfl
      | succ k' =>
          exfalso
          unfold backupCandidate at h
          have hdata := congrArg String.data h
          simp only [String.data_append] at hdata
          have := congrArg List.length hdata
          simp at this
  | succ j' =>
      cases k with
      | zero =>
          exfalso
          unfold backupCandidate at h
          have hdata := congrArg String.data h
          simp only [String.data_append] at hdata
          have := congrArg List.length hdata
          simp at this
      | succ k' =>
          unfold backupCandidate at h
          have hdata := congrArg String.data h
          simp only [String.data_append, List.append_assoc] at hdata
          have h2 := List.append_cancel_left hdata
          have h3 := List.append_cancel_left h2
          have h4 : j' + 1 = k' + 1 := natStr_inj _ _ (string_data_inj h3)
          omega

end Dotmng

namespace Dotmng

/-- Some backup candidate within the first `|files| + |dirs| + 1` indices
is free: the candidate paths are pairwise distinct, so they cannot all be
among the finitely many existing paths. -/
theorem exists_backupFree (fs : FS) (dir : FsPath) (name : String) :
    ∃ j, j < fs.files.length + fs.dirs.length + 1 ∧ backupFree fs dir name j = true := by
  by_contra hcon
  push_neg at hcon
  have hall : ∀ j, j < fs.files.length + fs.dirs.length + 1 →
      (dir ++ [backupCandidate name j]) ∈ fs.files ++ fs.dirs := by
    intro j hj
    have h := hcon j hj
    have hex : pathExists fs (dir ++ [backupCandidate name j]) = true := by
      cases hpe : pathExists fs (dir ++ [backupCandidate name j])
      · exfalso
        apply h
        unfold backupFree
        rw [hpe]
        rfl
      · rfl
    unfold pathExists at hex
    rcases Bool.or_eq_true_iff.mp hex with hf | hd
    · exact List.mem_append_left _ ((contains_true_iff _ _).mp hf)
    · exact List.mem_append_right _ ((contains_true_iff _ _).mp hd)
  have hinj : Set.InjOn (fun j => dir ++ [backupCandidate name j])
      ↑(Finset.range (fs.files.length + fs.dirs.length + 1)) := by
    intro j _ k _ h
    have h2 : backupCandidate name j = backupCandidate name k := by
      have := List.append_cancel_left (h : dir ++ [backupCandidate name j] = _)
      simpa using this
    exact backupCandidate_inj name j k h2
  have hcard : ((Finset.range (fs.files.length + fs.dirs.length + 1)).image
      (fun j => dir ++ [backupCandidate name j])).card
      = fs.files.length + fs.dirs.length + 1 := by
    rw [Finset.card_image_of_injOn hinj, Finset.card_range]
  have hsub : (Finset.range (fs.files.length + fs.dirs.length + 1)).image
      (fun j => dir ++ [backupCandidate name j]) ⊆ (fs.files ++ fs.dirs).toFinset := by
    intro p hp
    rcases Finset.mem_image.mp hp with ⟨j, hj, rfl⟩
    exact List.mem_toFinset.mpr (hall j (Finset.mem_range.mp hj))
  have h1 := Finset.card_le_card hsub
  have h2 := List.toFinset_card_le (l := fs.files ++ fs.dirs)
  rw [hcard] at h1
  simp only [List.length_append] at h2
  omega

/-- The bounded candidate search returns the least free index at or after
its start as soon as any free index exists within the fuel. -/
theorem findFreeIdx_spec (free : Nat → Bool) :
    ∀ (fuel k0 : Nat), (∃ j, j < fuel ∧ free (k0 + j) = true) →
      free (findFreeIdx free fuel k0) = true ∧
      k0 ≤ findFreeIdx free fuel k0 ∧
      ∀ j, k0 ≤ j → j < findFreeIdx free fuel k0 → free j = false := by
  intro fuel
  induction fuel with
  | zero =>
      intro k0 h
      rcases h with ⟨j, hj, _⟩
      omega
  | succ fuel ih =>
      intro k0 h
      unfold findFreeIdx
      cases hk : free k0
      · rcases h with ⟨j, hj, hfree⟩
        have hj0 : j ≠ 0 := by
          intro h0
          rw [h0, Nat.add_zero] at hfree
          rw [hk] at hfree
          exact Bool.false_ne_true hfree
        have hex : ∃ j', j' < fuel ∧ free (k0 + 1 + j') = true := by
          refine ⟨j - 1, by omega, ?_⟩
          have : k0 + 1 + (j - 1) = k0 + j := by omega
          rw [this]
          exact hfree
        rcases ih (k0 + 1) hex with ⟨hf, hge, hmin⟩
        simp only [Bool.false_eq_true, if_false]
        refine ⟨hf, by omega, ?_⟩
        intro j' hj1 hj2
        by_cases hjk : j' = k0
        · rw [hjk]; exact hk
        · exact hmin j' (by omega) hj2
      · simp only [if_true]
        exact ⟨hk, Nat.le_refl _, fun j h1 h2 => by omega⟩

end Dotmng

namespace Dotmng

theorem backupFree_true_iff (fs : FS) (dir : FsPath) (name : String) (k : Nat) :
    backupFree fs dir name k = true ↔ pathExists fs (dir ++ [backupCandidate name k]) = false := by
  unfold backupFree
  cases hpe : pathExists fs (dir ++ [backupCandidate name k]) <;> simp

theorem backupFree_false_iff (fs : FS) (dir : FsPath) (name : String) (k : Nat) :
    backupFree fs dir name k = false ↔ pathExists fs (dir ++ [backupCandidate name k]) = true := by
  unfold backupFree
  cases hpe : pathExists fs (dir ++ [backupCandidate name k]) <;> simp

theorem pathExists_false_parts (fs : FS) (p : FsPath) (h : pathExists fs p = false) :
    fs.files.contains p = false ∧ fs.dirs.contains p = false := by
  unfold pathExists at h
  exact ⟨(Bool.or_eq_false_iff.mp h).1, (Bool.or_eq_false_iff.mp h).2⟩

/-- Claim C6 (amended): a successful backup of an existing destination
file lands in the fixed `~/.config_backup` directory under the first free
candidate name — the bare original filename when that is free, else the
original filename with a numeric suffix starting at 1 and incrementing
until a free name is found — never the path of an existing file or
previous backup, and it adds exactly one new file to the filesystem. -/
theorem backup_existing_fresh_name :
    ∀ (cfg : Config) (home : FsPath) (fs : FS) (target_path : FsPath),
      cfg.backup_existing = true →
      pathExists fs target_path = true →
      fs.failing = [] →
      ∃ k,
        pathExists (if cfg.create_backup_dir then addDir fs (home ++ [".config_backup"]) else fs)
            ((home ++ [".config_backup"]) ++ [backupCandidate (pathName target_path) k]) = false
        ∧ (∀ j, j < k →
            pathExists (if cfg.create_backup_dir then addDir fs (home ++ [".config_backup"]) else fs)
              ((home ++ [".config_backup"]) ++ [backupCandidate (pathName target_path) j]) = true)
        ∧ backup_existing cfg home fs target_path
            = (true,
               { (if cfg.create_backup_dir then addDir fs (home ++ [".config_backup"]) else fs) with
                   files :=
                     (if cfg.create_backup_dir then addDir fs (home ++ [".config_backup"])
                      else fs).files
                       ++ [(home ++ [".config_backup"])
                            ++ [backupCandidate (pathName target_path) k]] }) := by
  intro cfg home fs target_path hb hex hfail
  have hfailing1 :
      (if cfg.create_backup_dir then addDir fs (home ++ [".config_backup"]) else fs).failing
        = [] := by
    cases cfg.create_backup_dir <;> simp [addDir, hfail]
  generalize hfs1 :
    (if cfg.create_backup_dir then addDir fs (home ++ [".config_backup"]) else fs) = fs1
  rw [hfs1] at hfailing1
  have hexj : ∃ j, j < fs1.files.length + fs1.dirs.length + 1 ∧
      backupFree fs1 (home ++ [".config_backup"]) (pathName target_path) (0 + j) = true := by
    rcases exists_backupFree fs1 (home ++ [".config_backup"]) (pathName target_path)
      with ⟨j, hj, hfj⟩
    exact ⟨j, hj, by rwa [Nat.zero_add]⟩
  rcases findFreeIdx_spec _ _ 0 hexj with ⟨hfree, _, hmin⟩
  have hpe : pathExists fs1 ((home ++ [".config_backup"])
      ++ [backupCandidate (pathName target_path)
            (findFreeIdx (backupFree fs1 (home ++ [".config_backup"]) (pathName target_path))
              (fs1.files.length + fs1.dirs.length + 1) 0)]) = false :=
    (backupFree_true_iff ..).mp hfree
  refine ⟨findFreeIdx (backupFree fs1 (home ++ [".config_backup"]) (pathName target_path))
      (fs1.files.length + fs1.dirs.length + 1) 0, hpe, ?_, ?_⟩
  · intro j hj
    exact (backupFree_false_iff ..).mp (hmin j (Nat.zero_le j) hj)
  · unfold backup_existing
    rw [hex]
    simp only [Bool.not_true, Bool.false_eq_true, if_false]
    rw [hb]
    simp only [Bool.not_true, Bool.false_eq_true, if_false]
    rw [hfs1]
    unfold chooseBackupPath
    rw [hfailing1]
    simp only [List.contains, List.elem_nil, Bool.false_eq_true, if_false]
    unfold addFile
    rw [(pathExists_false_parts fs1 _ hpe).1]
    simp only [Bool.false_eq_true, if_false]
    rw [hfailing1]

end Dotmng

namespace Dotmng

/-- Claim C6, counterexample: the first backup of an existing destination
file into an empty backup directory is stored under the bare original
filename, not under the original filename with the numeric suffix `1` the
claim describes: no `alacritty.yml.1` backup is created. -/
theorem backup_existing_first_backup_unsuffixed :
    (backup_existing ⟨true, true, false, []⟩ ["home"]
        ⟨[["home", ".config", "alacritty", "alacritty.yml"]], [], []⟩
        ["home", ".config", "alacritty", "alacritty.yml"]).2.files
      = [["home", ".config", "alacritty", "alacritty.yml"],
         ["home", ".config_backup", "alacritty.yml"]]
    ∧ ¬ (["home", ".config_backup", "alacritty.yml.1"]
          ∈ (backup_existing ⟨true, true, false, []⟩ ["home"]
              ⟨[["home", ".config", "alacritty", "alacritty.yml"]], [], []⟩
              ["home", ".config", "alacritty", "alacritty.yml"]).2.files) := by
  refine ⟨by decide, by decide⟩

/-- Claim C6, witness: the amended theorem applied to a filesystem that
already holds the destination file, a bare-name backup, and a `.1` backup;
the hypotheses evaluate by `decide`. -/
theorem backup_existing_fresh_name_witness :
    ∃ k,
      pathExists
          (addDir ⟨[["home", ".config", "alacritty", "alacritty.yml"],
                    ["home", ".config_backup", "alacritty.yml"],
                    ["home", ".config_backup", "alacritty.yml.1"]],
                   [["home", ".config_backup"]], []⟩ (["home"] ++ [".config_backup"]))
          ((["home"] ++ [".config_backup"])
            ++ [backupCandidate (pathName ["home", ".config", "alacritty", "alacritty.yml"]) k])
        = false
      ∧ (∀ j, j < k →
          pathExists
            (addDir ⟨[["home", ".config", "alacritty", "alacritty.yml"],
                      ["home", ".config_backup", "alacritty.yml"],
                      ["home", ".config_backup", "alacritty.yml.1"]],
                     [["home", ".config_backup"]], []⟩ (["home"] ++ [".config_backup"]))
            ((["home"] ++ [".config_backup"])
              ++ [backupCandidate (pathName ["home", ".config", "alacritty", "alacritty.yml"]) j])
          = true)
      ∧ backup_existing ⟨true, true, false, []⟩ ["home"]
            ⟨[["home", ".config", "alacritty", "alacritty.yml"],
              ["home", ".config_backup", "alacritty.yml"],
              ["home", ".config_backup", "alacritty.yml.1"]],
             [["home", ".config_backup"]], []⟩
            ["home", ".config", "alacritty", "alacritty.yml"]
          = (true,
             { addDir ⟨[["home", ".config", "alacritty", "alacritty.yml"],
                        ["home", ".config_backup", "alacritty.yml"],
                        ["home", ".config_backup", "alacritty.yml.1"]],
                       [["home", ".config_backup"]], []⟩ (["home"] ++ [".config_backup"]) with
                 files :=
                   (addDir ⟨[["home", ".config", "alacritty", "alacritty.yml"],
                             ["home", ".config_backup", "alacritty.yml"],
                             ["home", ".config_backup", "alacritty.yml.1"]],
                            [["home", ".config_backup"]], []⟩
                     (["home"] ++ [".config_backup"])).files
                     ++ [(["home"] ++ [".config_backup"])
                          ++ [backupCandidate
                                (pathName ["home", ".config", "alacritty", "alacritty.yml"]) k]] }) :=
  backup_existing_fresh_name ⟨true, true, false, []⟩ ["home"]
    ⟨[["home", ".config", "alacritty", "alacritty.yml"],
      ["home", ".config_backup", "alacritty.yml"],
      ["home", ".config_backup", "alacritty.yml.1"]],
     [["home", ".config_backup"]], []⟩
    ["home", ".config", "alacritty", "alacritty.yml"] rfl (by decide) rfl

end Dotmng

namespace Dotmng

/-! ## Lemmas about the registry line format -/

theorem contains_eq_false_iff {α : Type} [BEq α] [LawfulBEq α] (l : List α) (a : α) :
    l.contains a = false ↔ a ∉ l := by
  rw [← contains_true_iff l a]
  cases l.contains a <;> simp

theorem splitOnChar_ne_nil (c : Char) : ∀ l, splitOnChar c l ≠ [] := by
  intro l
  induction l with
  | nil => simp [splitOnChar]
  | cons x xs ih =>
      unfold splitOnChar
      dsimp only
      cases hx : x == c
      · simp only [Bool.false_eq_true, if_false]
        cases hr : splitOnChar c xs
        · exact absurd hr ih
        · simp
      · simp

theorem splitOnChar_no_sep (c : Char) : ∀ l, c ∉ l → splitOnChar c l = [l] := by
  intro l
  induction l with
  | nil => intro _; rfl
  | cons x xs ih =>
      intro h
      have hx : (x == c) = false := by
        rw [beq_eq_false_iff_ne]
        intro hxc
        exact h (hxc ▸ List.mem_cons_self x xs)
      have hxs : c ∉ xs := fun hm => h (List.mem_cons_of_mem x hm)
      unfold splitOnChar
      dsimp only
      rw [hx]
      simp only [Bool.false_eq_true, if_false]
      rw [ih hxs]

theorem splitOnChar_append_sep (c : Char) :
    ∀ (x rest : List Char), c ∉ x →
      splitOnChar c (x ++ c :: rest) = x :: splitOnChar c rest := by
  intro x
  induction x with
  | nil =>
      intro rest _
      rw [List.nil_append]
      rw [splitOnChar]
      simp only [beq_self_eq_true, if_true]
  | cons a t ih =>
      intro rest h
      have ha : (a == c) = false := by
        rw [beq_eq_false_iff_ne]
        intro hac
        exact h (hac ▸ List.mem_cons_self a t)
      have ht : c ∉ t := fun hm => h (List.mem_cons_of_mem a hm)
      rw [List.cons_append]
      rw [splitOnChar]
      simp only [ha, Bool.false_eq_true, if_false]
      rw [ih rest ht]

theorem splitOnChar_joinWith (c : Char) :
    ∀ (fields : List (List Char)), fields ≠ [] → (∀ f ∈ fields, c ∉ f) →
      splitOnChar c (joinWithChar c fields) = fields := by
  intro fields
  induction fields with
  | nil => intro h _; exact absurd rfl h
  | cons f fs ih =>
      intro _ hall
      cases fs with
      | nil =>
          show splitOnChar c (joinWithChar c [f]) = [f]
          unfold joinWithChar
          exact splitOnChar_no_sep c f (hall f (List.mem_cons_self f []))
      | cons f2 fs2 =>
          show splitOnChar c (joinWithChar c (f :: f2 :: fs2)) = f :: f2 :: fs2
          have hjoin : joinWithChar c (f :: f2 :: fs2) = f ++ c :: joinWithChar c (f2 :: fs2) := by
            rfl
          rw [hjoin, splitOnChar_append_sep c f _ (hall f (List.mem_cons_self f _)),
            ih (by simp) (fun g hg => hall g (List.mem_cons_of_mem f hg))]

theorem not_mem_joinWith (c c' : Char) (hne : c ≠ c') :
    ∀ (fields : List (List Char)), (∀ f ∈ fields, c ∉ f) →
      c ∉ joinWithChar c' fields := by
  intro fields
  induction fields with
  | nil => intro _; simp [joinWithChar]
  | cons f fs ih =>
      intro hall
      cases fs with
      | nil => exact hall f (List.mem_cons_self f [])
      | cons f2 fs2 =>
          show c ∉ f ++ c' :: joinWithChar c' (f2 :: fs2)
          intro hmem
          rcases List.mem_append.mp hmem with hf | hrest
          · exact hall f (List.mem_cons_self f _) hf
          · rcases List.mem_cons.mp hrest with heq | hjoin
            · exact hne heq
            · exact ih (fun g hg => hall g (List.mem_cons_of_mem f hg)) hjoin

end Dotmng

namespace Dotmng

/-! ## Lemmas about stripping -/

theorem trimLeftChars_eq_self (l : List Char) (h : ((l.headD 'x').isWhitespace) = false) :
    trimLeftChars l = l := by
  cases l with
  | nil => rfl
  | cons a t =>
      have : a.isWhitespace = false := h
      simp [trimLeftChars, List.dropWhile_cons, this]

theorem headD_reverse (l : List Char) (d : Char) : l.reverse.headD d = l.getLastD d := by
  rw [List.headD_eq_head?_getD, List.head?_reverse, List.getLastD_eq_getLast?]

theorem trimChars_eq_self (l : List Char)
    (h1 : ((l.headD 'x').isWhitespace) = false)
    (h2 : ((l.getLastD 'x').isWhitespace) = false) :
    trimChars l = l := by
  unfold trimChars
  rw [trimLeftChars_eq_self l.reverse (by rw [headD_reverse]; exact h2)]
  rw [List.reverse_reverse]
  exact trimLeftChars_eq_self l h1

/-! ## Edge characters of appended lists -/

theorem headD_append_cons (x : List Char) (c : Char) (rest : List Char) (d : Char) :
    (x ++ c :: rest).headD d = x.headD c := by
  cases x <;> rfl

theorem getLastD_append_cons (c : Char) (rest : List Char) :
    ∀ (x : List Char) (d : Char), (x ++ c :: rest).getLastD d = rest.getLastD c := by
  intro x
  induction x with
  | nil => intro d; rw [List.nil_append, List.getLastD_cons]
  | cons a t ih =>
      intro d
      rw [List.cons_append, List.getLastD_cons]
      exact ih a

theorem headD_notWs_switch (x : List Char) (d : Char)
    (h : ((x.headD 'x').isWhitespace) = false) (hd : d.isWhitespace = false) :
    ((x.headD d).isWhitespace) = false := by
  cases x with
  | nil => exact hd
  | cons a t => exact h

theorem getLastD_notWs_switch (x : List Char) (d : Char)
    (h : ((x.getLastD 'x').isWhitespace) = false) (hd : d.isWhitespace = false) :
    ((x.getLastD d).isWhitespace) = false := by
  cases x with
  | nil => exact hd
  | cons a t =>
      rw [List.getLastD_cons] at h ⊢
      exact h

theorem joinWith_headD_notWs (c' : Char) (hc' : c'.isWhitespace = false) :
    ∀ (fields : List (List Char)),
      (∀ f ∈ fields, ((f.headD 'x').isWhitespace) = false) →
      ∀ d, d.isWhitespace = false →
      (((joinWithChar c' fields).headD d).isWhitespace) = false := by
  intro fields
  induction fields with
  | nil => intro _ d hd; exact hd
  | cons f fs ih =>
      intro hall d hd
      cases fs with
      | nil =>
          show (((joinWithChar c' [f]).headD d).isWhitespace) = false
          unfold joinWithChar
          exact headD_notWs_switch f d (hall f (List.mem_cons_self f _)) hd
      | cons f2 fs2 =>
          show (((f ++ c' :: joinWithChar c' (f2 :: fs2)).headD d).isWhitespace) = false
          rw [headD_append_cons]
          exact headD_notWs_switch f c' (hall f (List.mem_cons_self f _)) hc'

theorem joinWith_getLastD_notWs (c' : Char) (hc' : c'.isWhitespace = false) :
    ∀ (fields : List (List Char)),
      (∀ f ∈ fields, ((f.getLastD 'x').isWhitespace) = false) →
      ∀ d, d.isWhitespace = false →
      (((joinWithChar c' fields).getLastD d).isWhitespace) = false := by
  intro fields
  induction fields with
  | nil => intro _ d hd; exact hd
  | cons f fs ih =>
      intro hall d hd
      cases fs with
      | nil =>
          show (((joinWithChar c' [f]).getLastD d).isWhitespace) = false
          unfold joinWithChar
          exact getLastD_notWs_switch f d (hall f (List.mem_cons_self f _)) hd
      | cons f2 fs2 =>
          show (((f ++ c' :: joinWithChar c' (f2 :: fs2)).getLastD d).isWhitespace) = false
          rw [getLastD_append_cons]
          exact ih (fun g hg => hall g (List.mem_cons_of_mem f hg)) c' hc'

end Dotmng

namespace Dotmng

theorem isEmpty_append_cons (x : List Char) (c : Char) (rest : List Char) :
    (x ++ c :: rest).isEmpty = false := by
  cases x <;> rfl

theorem take_one_append_cons (x : List Char) (c : Char) (rest : List Char) :
    (x ++ c :: rest).take 1 = if x.isEmpty then [c] else x.take 1 := by
  cases x with
  | nil => rfl
  | cons a t => rfl

theorem isEmpty_false_iff (l : List (List Char)) : l.isEmpty = false ↔ l ≠ [] := by
  cases l <;> simp

/-- A storable entry's record line parses back to the entry itself. -/
theorem parseRepoLine_repoLine (r : RepoEntry) (h : storableEntry r = true) :
    parseRepoLine (repoLine r) = some r := by
  simp only [storableEntry, noEdgeWs, Bool.and_eq_true, Bool.not_eq_true',
    List.all_eq_true] at h
  rcases h with ⟨⟨⟨⟨⟨⟨⟨⟨⟨⟨⟨hNp, hUp⟩, hDp⟩, hNn⟩, hUn⟩, hDn⟩, ⟨hNh, hNl⟩⟩, ⟨hUh, hUl⟩⟩,
    ⟨hDh, hDl⟩⟩, hHash⟩, hTne⟩, hTall⟩
  have hNpipe : '|' ∉ r.name := (contains_eq_false_iff _ _).mp hNp
  have hUpipe : '|' ∉ r.url := (contains_eq_false_iff _ _).mp hUp
  have hDpipe : '|' ∉ r.description := (contains_eq_false_iff _ _).mp hDp
  have hTagFacts : ∀ t ∈ r.tags, ',' ∉ t ∧ '|' ∉ t ∧
      ((t.headD 'x').isWhitespace) = false ∧ ((t.getLastD 'x').isWhitespace) = false := by
    intro t ht
    have := hTall t ht
    simp only [Bool.and_eq_true, Bool.not_eq_true'] at this
    rcases this with ⟨⟨⟨hc, hp⟩, _⟩, ⟨hh, hl⟩⟩
    exact ⟨(contains_eq_false_iff _ _).mp hc, (contains_eq_false_iff _ _).mp hp, hh, hl⟩
  have hTpipe : '|' ∉ joinWithChar ',' r.tags :=
    not_mem_joinWith '|' ',' (by decide) r.tags (fun t ht => (hTagFacts t ht).2.1)
  have hTnil : r.tags ≠ [] := (isEmpty_false_iff _).mp hTne
  have hline : repoLine r
      = r.name ++ '|' :: (r.url ++ '|' :: (r.description ++ '|' :: joinWithChar ',' r.tags)) := by
    unfold repoLine
    simp [List.append_assoc]
  have htrim : trimChars (repoLine r) = repoLine r := by
    apply trimChars_eq_self
    · rw [hline, headD_append_cons]
      exact headD_notWs_switch r.name '|' hNh (by decide)
    · rw [hline, getLastD_append_cons, getLastD_append_cons, getLastD_append_cons]
      exact joinWith_getLastD_notWs ',' (by decide) r.tags
        (fun t ht => (hTagFacts t ht).2.2.2) '|' (by decide)
  have hsplit : splitOnChar '|' (repoLine r)
      = [r.name, r.url, r.description, joinWithChar ',' r.tags] := by
    rw [hline]
    rw [splitOnChar_append_sep '|' r.name _ hNpipe]
    rw [splitOnChar_append_sep '|' r.url _ hUpipe]
    rw [splitOnChar_append_sep '|' r.description _ hDpipe]
    rw [splitOnChar_no_sep '|' _ hTpipe]
  have hempty : (repoLine r).isEmpty = false := by
    rw [hline]
    exact isEmpty_append_cons _ _ _
  have htake : ((repoLine r).take 1 == ['#']) = false := by
    rw [hline, take_one_append_cons]
    cases hN : r.name with
    | nil => decide
    | cons a t =>
        simp only [List.isEmpty_cons, Bool.false_eq_true, if_false]
        rw [beq_eq_false_iff_ne]
        rw [hN] at hHash
        exact fun heq => ((beq_eq_false_iff_ne).mp hHash) heq
  have hTtrim : trimChars (joinWithChar ',' r.tags) = joinWithChar ',' r.tags := by
    apply trimChars_eq_self
    · exact joinWith_headD_notWs ',' (by decide) r.tags
        (fun t ht => (hTagFacts t ht).2.2.1) 'x' (by decide)
    · exact joinWith_getLastD_notWs ',' (by decide) r.tags
        (fun t ht => (hTagFacts t ht).2.2.2) 'x' (by decide)
  have hTsplit : splitOnChar ',' (joinWithChar ',' r.tags) = r.tags :=
    splitOnChar_joinWith ',' r.tags hTnil (fun t ht => (hTagFacts t ht).1)
  unfold parseRepoLine
  rw [htrim]
  dsimp only
  rw [hempty]
  simp only [Bool.false_eq_true, if_false]
  rw [htake]
  simp only [Bool.false_eq_true, if_false]
  rw [hsplit]
  have hlen4 : ([r.name, r.url, r.description, joinWithChar ',' r.tags]).length = 4 := rfl
  rw [hlen4]
  rw [if_pos (by omega : (4 : Nat) ≥ 2)]
  rw [if_pos (by omega : (4 : Nat) > 2), if_pos (by omega : (4 : Nat) > 3)]
  simp only [List.getD, List.get?_cons_zero, List.get?_cons_succ, Option.getD_some]
  rw [trimChars_eq_self r.name hNh hNl, trimChars_eq_self r.url hUh hUl,
    trimChars_eq_self r.description hDh hDl, hTtrim, hTsplit]

end Dotmng

namespace Dotmng

/-! ## Claim C9 -/

/-- Claim C9, counterexample: adding an entry with an empty tag list and
reloading does not return the tags unchanged — the parser splits the empty
tags field on `','`, producing `[""]` instead of `[]`. -/
theorem add_repo_empty_tags_not_roundtrip :
    load_repo_list (add_repo [] ("https://github.com/user/my-theme.git").data
        ("A beautiful theme").data [] ("my-theme").data).2
      = [⟨("my-theme").data, ("https://github.com/user/my-theme.git").data,
          ("A beautiful theme").data, [[]]⟩]
    ∧ ([[]] : List (List Char)) ≠ [] := by
  refine ⟨by decide, by decide⟩

/-- Claim C9 (amended): `add_repo` rejects, without modifying the registry
file, any entry whose name or URL equals that of an existing entry; and
for a non-duplicate entry that is storable in the line format (no `'|'` or
newline in a field, no leading or trailing whitespace, a name not
beginning with `'#'`, and a nonempty tag list whose tags are free of
`','`, `'|'`, newlines, and edge whitespace), adding it and reloading the
registry yields an entry whose name, URL, description, and tags are
identical to those added.  (An empty tag list instead reloads as the
single empty tag.) -/
theorem add_repo_roundtrip :
    (∀ (fileLines : List (List Char)) (url description : List Char)
        (tags : List (List Char)) (name : List Char),
      (load_repo_list fileLines).any (fun r => r.name == name || r.url == url) = true →
        add_repo fileLines url description tags name = (false, fileLines))
    ∧ (∀ (fileLines : List (List Char)) (url description : List Char)
        (tags : List (List Char)) (name : List Char),
      (load_repo_list fileLines).any (fun r => r.name == name || r.url == url) = false →
      storableEntry ⟨name, url, description, tags⟩ = true →
      (⟨name, url, description, tags⟩ : RepoEntry)
        ∈ load_repo_list (add_repo fileLines url description tags name).2) := by
  constructor
  · intro fileLines url description tags name hdup
    unfold add_repo
    dsimp only
    rw [hdup]
    simp
  · intro fileLines url description tags name hdup hstore
    unfold add_repo
    dsimp only
    rw [hdup]
    simp only [Bool.false_eq_true, if_false]
    unfold save_repo_list load_repo_list
    apply List.mem_filterMap.mpr
    refine ⟨repoLine ⟨name, url, description, tags⟩, ?_,
      parseRepoLine_repoLine ⟨name, url, description, tags⟩ hstore⟩
    apply List.mem_append_right
    exact List.mem_map_of_mem repoLine (List.mem_append_right _ (List.mem_singleton.mpr rfl))

/-- Claim C9, witness: a clean entry with two tags added to an empty
registry reloads unchanged. -/
theorem add_repo_roundtrip_witness :
    (⟨("my-theme").data, ("https://github.com/user/my-theme.git").data,
        ("A beautiful theme").data, [("hyprland").data, ("eww").data]⟩ : RepoEntry)
      ∈ load_repo_list (add_repo [] ("https://github.com/user/my-theme.git").data
          ("A beautiful theme").data [("hyprland").data, ("eww").data]
          ("my-theme").data).2 :=
  add_repo_roundtrip.2 [] ("https://github.com/user/my-theme.git").data
    ("A beautiful theme").data [("hyprland").data, ("eww").data] ("my-theme").data
    (by decide) (by decide)

end Dotmng
